import Mathlib

/-!
Verification development for the typi Typst local package installer
(`src/typi/__main__.py`).  The Python program is shallowly embedded:
filesystem paths become lists of components, the filesystem becomes an
explicit association list of (path, contents), and each Python function
is translated into an executable Lean definition of the same name.
-/

namespace Typi

/-- An absolute POSIX path, modelled as its list of components:
`/a/b` is `["a", "b"]`.  Mirrors `pathlib.PurePosixPath.parts`. -/
abbrev Path := List String

/-- The characters of `str(path)` for an absolute path: a `/` before every
component, followed by the component characters.  `/a/b` yields
`['/','a','/','b']`. -/
def pathChars (p : Path) : List Char :=
  p.foldl (fun acc c => acc ++ '/' :: c.toList) []

/-- Models the Python test `"@" in str(current)`.  For a one-character
needle, substring containment of `"@"` in `str(path)` is exactly membership
of the character `'@'` in the character list of `str(path)`. -/
def hasAt (p : Path) : Bool := (pathChars p).contains '@'

/-- One step of POSIX path normalization: empty components and `"."` are
dropped, `".."` removes the previous component (at the root it is a no-op),
anything else is appended.  This is the `..`-elimination that
`pathlib.Path.resolve()` performs (the model has no symlinks). -/
def normComp (acc : Path) (c : String) : Path :=
  if c = "" ∨ c = "." then acc
  else if c = ".." then acc.dropLast
  else acc ++ [c]

/-- Models `Path(...).resolve()` on a component list that may still contain
`""`, `"."` and `".."` entries. -/
def resolveParts (parts : List String) : Path := parts.foldl normComp []

/-- Splits a character list at `/` separators, keeping empty pieces,
like `str.split("/")`. -/
def splitSlashAux : List Char → List Char → List String
  | [], acc => [String.mk acc.reverse]
  | '/' :: rest, acc => String.mk acc.reverse :: splitSlashAux rest []
  | c :: rest, acc => splitSlashAux rest (c :: acc)

/-- Splits a string at `/` separators. -/
def splitSlash (s : String) : List String := splitSlashAux s.toList []

/-- Models `base / rel` for `pathlib` paths: a relative `rel` is appended
component-wise; an absolute `rel` (leading `/`) replaces `base`.  The result
may still contain `""`/`"."`/`".."` components; `resolveParts` removes them. -/
def pyJoin (base : Path) (rel : String) : List String :=
  match rel.toList with
  | '/' :: _ => splitSlash rel
  | _ => base ++ splitSlash rel

/-- Models `(base / rel).resolve()`. -/
def joinResolve (base : Path) (rel : String) : Path := resolveParts (pyJoin base rel)

/-- Models `pathlib.Path.name`: the final component (`""` for the root). -/
def lastName (p : Path) : String := p.getLastD ""

/-- Models `pathlib.Path.suffix` of a file name: the part from the last dot,
provided that dot is neither the first nor the last character of the name. -/
def pySuffix (name : String) : String :=
  let cs := name.toList
  let after := (cs.reverse.takeWhile (fun c => c ≠ '.')).reverse
  if 0 < after.length ∧ after.length + 1 < cs.length then String.mk ('.' :: after)
  else ""

/-- Models `p.relative_to(root)`: `some` of the remaining components when
`root` is a componentwise prefix of `p`, `none` (Python: `ValueError`)
otherwise. -/
def relativeTo (p root : Path) : Option Path :=
  if root.isPrefixOf p then some (p.drop root.length) else none

/-- Models `str(...)` / `.as_posix()` of a relative path: components joined
with `/`, and `"."` for the empty relative path. -/
def relStr (rel : Path) : String :=
  match rel with
  | [] => "."
  | c :: rest => rest.foldl (fun acc s => acc ++ "/" ++ s) c

/-! ## Reference Scanner: the two regexes of the source

`IMPORT_RE = re.compile(r'#import\s+"([^"]+)"')`
`ASSET_RE = re.compile(r'(image|read)\s*\(\s*"([^"]+)"\s*\)')`

`findall` scans left to right and, after each match, resumes right after
its end.  Both regexes are deterministic (every quantified class is
disjoint from the character that follows it), so the matcher below needs
no backtracking inside a match. -/

/-- A character of the regex class `\s`. -/
def isPySpace (c : Char) : Bool :=
  c = ' ' ∨ c = '\t' ∨ c = '\n' ∨ c = '\r' ∨ c = '\x0b' ∨ c = '\x0c'

/-- Drops an expected literal character sequence; `none` if it is not there. -/
def dropLit : List Char → List Char → Option (List Char)
  | [], cs => some cs
  | _ :: _, [] => none
  | l :: ls, c :: cs => if l = c then dropLit ls cs else none

/-- Tries to match `IMPORT_RE` at the start of `cs`; on success returns the
captured path and the remainder after the match. -/
def matchImportAt (cs : List Char) : Option (String × List Char) :=
  match dropLit "#import".toList cs with
  | none => none
  | some cs1 =>
    let ws := cs1.takeWhile isPySpace
    let cs2 := cs1.dropWhile isPySpace
    if ws.isEmpty then none
    else
      match cs2 with
      | '"' :: cs3 =>
        let body := cs3.takeWhile (fun c => c ≠ '"')
        let cs4 := cs3.dropWhile (fun c => c ≠ '"')
        if body.isEmpty then none
        else
          match cs4 with
          | '"' :: cs5 => some (String.mk body, cs5)
          | _ => none
      | _ => none

/-- `IMPORT_RE.findall`: fuelled left-to-right scan.  Each step consumes at
least one character, so fuel equal to the text length never runs out. -/
def importScanAux : Nat → List Char → List String
  | 0, _ => []
  | _, [] => []
  | fuel + 1, c :: rest =>
    match matchImportAt (c :: rest) with
    | some (path0, remaining) => path0 :: importScanAux fuel remaining
    | none => importScanAux fuel rest

/-- Models `IMPORT_RE.findall(text)`. -/
def importFindall (s : String) : List String := importScanAux s.length s.toList

/-- Matches `\s*\(\s*"([^"]+)"\s*\)` (the tail of `ASSET_RE` after the
function name), returning the captured path and the remainder. -/
def matchCallTail (cs : List Char) : Option (String × List Char) :=
  let cs1 := cs.dropWhile isPySpace
  match cs1 with
  | '(' :: cs2 =>
    let cs3 := cs2.dropWhile isPySpace
    match cs3 with
    | '"' :: cs4 =>
      let body := cs4.takeWhile (fun c => c ≠ '"')
      let cs5 := cs4.dropWhile (fun c => c ≠ '"')
      if body.isEmpty then none
      else
        match cs5 with
        | '"' :: cs6 =>
          let cs7 := cs6.dropWhile isPySpace
          match cs7 with
          | ')' :: cs8 => some (String.mk body, cs8)
          | _ => none
        | _ => none
    | _ => none
  | _ => none

/-- Tries to match `ASSET_RE` at the start of `cs`: alternation
`(image|read)` followed by the call tail, with the same backtracking
behaviour as the regex engine (if the `image` branch fails, `read` is
retried at the same position). -/
def matchAssetAt (cs : List Char) : Option (String × List Char) :=
  match dropLit "image".toList cs with
  | some cs1 =>
    match matchCallTail cs1 with
    | some r => some r
    | none =>
      match dropLit "read".toList cs with
      | some cs2 => matchCallTail cs2
      | none => none
  | none =>
    match dropLit "read".toList cs with
    | some cs2 => matchCallTail cs2
    | none => none

/-- `ASSET_RE.findall` (second capture group): fuelled left-to-right scan. -/
def assetScanAux : Nat → List Char → List String
  | 0, _ => []
  | _, [] => []
  | fuel + 1, c :: rest =>
    match matchAssetAt (c :: rest) with
    | some (path0, remaining) => path0 :: assetScanAux fuel remaining
    | none => assetScanAux fuel rest

/-- Models `[m[1] for m in ASSET_RE.findall(text)]` — `findall` with two
groups returns pairs; the source uses only the path group. -/
def assetFindall (s : String) : List String := assetScanAux s.length s.toList

/-! ## Data model: TOML manifests and the filesystem -/

/-- A TOML value as used by the manifest: a string, or an array of strings
(the `exclude` list). -/
inductive TomlVal where
  | str (s : String)
  | arr (l : List String)
deriving DecidableEq

/-- A parsed `typst.toml`: the optional `[package]` and `[template]`
tables, each a key/value list. -/
structure TomlConfig where
  package : Option (List (String × TomlVal))
  template : Option (List (String × TomlVal))
deriving DecidableEq

/-- The filesystem: existing regular files with their text contents,
existing directories, and — modelling `tomllib.load` as an external
collaborator — the parsed TOML of manifest files, keyed by path. -/
structure FS where
  files : List (Path × String)
  dirs : List Path
  manifests : List (Path × TomlConfig)
deriving DecidableEq

/-- Models `path.read_text()`: the contents of the file at `p`, if any. -/
def readText (fs : FS) (p : Path) : Option String := fs.files.lookup p

/-- Models `path.exists()`: `p` is a regular file or a directory. -/
def pathExists (fs : FS) (p : Path) : Bool :=
  (readText fs p).isSome || fs.dirs.contains p

/-- The Python exceptions raised by the source, by constructor:
`FileNotFoundError(f"Missing file: {rel}")`, `ValueError` from
`relative_to`, `IsADirectoryError` from `read_text`/`copy2` on a directory,
`FileNotFoundError("No typst.toml in this directory")`,
`FileNotFoundError("Directory does not exist")`,
`RuntimeError("Not a valid typst.toml")`, `KeyError(k)`, and `TypeError`. -/
inductive PyErr where
  | missingFile (rel : String)
  | valueError
  | isADirectory
  | noTypstToml
  | dirNotExist
  | notValidToml
  | keyError (k : String)
  | typeError
deriving DecidableEq

/-! ## Closure Collector (`collect_files`) -/

/-- The references pushed when scanning one source file: every import
reference, then every asset reference whose target exists (the source
pre-checks asset existence before pushing).  `base` is the directory of the
file being scanned (`current.parent`). -/
def refsToPush (fs : FS) (base : Path) (text : String) : List Path :=
  (importFindall text).map (joinResolve base)
    ++ ((assetFindall text).map (joinResolve base)).filter (fun a => pathExists fs a)

/-- The error raised for a missing popped path:
`FileNotFoundError(f"Missing file: {current.relative_to(package_root)}")`;
if `current` is not under `package_root`, `relative_to` itself raises
`ValueError`. -/
def missingErr (root current : Path) : PyErr :=
  match relativeTo current root with
  | some rel => .missingFile (relStr rel)
  | none => .valueError

/-- The `while stack:` loop of `collect_files`.  The stack is kept with its
top at the head (Python pushes with `append` and pops from the end, so a
scanned file's references are prepended in reverse).  Recursion is on
explicit fuel; `collect_fuel_sufficient` below proves the fuel chosen by
`collect_files` never runs out (`none` = fuel exhausted). -/
def collectAux (fs : FS) (root : Path) :
    Nat → List Path → List Path → Option (Except PyErr (List Path))
  | _, [], disc => some (.ok disc)
  | 0, _ :: _, _ => none
  | fuel + 1, current :: rest, disc =>
    if hasAt current then collectAux fs root fuel rest disc
    else if current ∈ disc then collectAux fs root fuel rest disc
    else if pathExists fs current = false then some (.error (missingErr root current))
    else if pySuffix (lastName current) ≠ ".typ" then
      collectAux fs root fuel rest (current :: disc)
    else
      match readText fs current with
      | none => some (.error .isADirectory)
      | some text =>
        collectAux fs root fuel
          ((refsToPush fs current.dropLast text).reverse ++ rest) (current :: disc)

/-- Upper bound on the references one file can ever push. -/
def refCount (f : Path × String) : Nat :=
  (importFindall f.2).length + (assetFindall f.2).length

/-- Fuel for the whole traversal: one pop for the entrypoint plus one pop
per reference any file could push. -/
def collectFuel (fs : FS) : Nat := 1 + (fs.files.map refCount).sum

/-- Models `collect_files(entrypoint, package_root)`: start from the
resolved entrypoint with an empty discovered set. -/
def collect_files (fs : FS) (entrypoint : List String) (package_root : Path) :
    Option (Except PyErr (List Path)) :=
  collectAux fs package_root (collectFuel fs) [resolveParts entrypoint] []

/-! ## Exclude filtering (`apply_excludes`), built on `fnmatch.fnmatch`

On POSIX, `fnmatch.fnmatch` is `fnmatchcase`: the whole name must match the
shell glob pattern, where `*` matches any character sequence (including
`/`), `?` any single character, and `[...]` a character class with `!`
negation, ranges, a literal `]` first, and an unterminated `[` taken
literally. -/

/-- Scans a character class body up to the closing `]`; `none` when the
class is unterminated. -/
def parseClassAux : List Char → List Char → Option (List Char × List Char)
  | acc, ']' :: rest => some (acc.reverse, rest)
  | acc, c :: rest => parseClassAux (c :: acc) rest
  | _, [] => none

/-- Parses the text after an opening `[`: the negation flag, the class
members (a leading `]` after the optional `!` is a literal member), and the
remaining pattern. -/
def parseClass (cs : List Char) : Option (Bool × List Char × List Char) :=
  let neg := match cs with
    | '!' :: _ => true
    | _ => false
  let cs1 := match cs with
    | '!' :: rest => rest
    | _ => cs
  match cs1 with
  | ']' :: rest2 =>
    match parseClassAux [']'] rest2 with
    | some (cls, rest3) => some (neg, cls, rest3)
    | none => none
  | _ =>
    match parseClassAux [] cs1 with
    | some (cls, rest3) => some (neg, cls, rest3)
    | none => none

/-- Does character `c` belong to class body `cls` (with `a-b` ranges)? -/
def classMatch (c : Char) : List Char → Bool
  | a :: '-' :: b :: rest => (decide (a ≤ c) && decide (c ≤ b)) || classMatch c rest
  | a :: rest => (a == c) || classMatch c rest
  | [] => false

/-- Fuelled glob matcher (full-string match, as `fnmatch` anchors with
`\Z`).  Every recursive call shortens pattern + string, so fuel
`|pattern| + |string| + 1` never runs out. -/
def matchGlob : Nat → List Char → List Char → Bool
  | 0, _, _ => false
  | _ + 1, [], s => s.isEmpty
  | fuel + 1, '*' :: ps, s =>
    matchGlob fuel ps s ||
      (match s with
       | [] => false
       | _ :: srest => matchGlob fuel ('*' :: ps) srest)
  | fuel + 1, '?' :: ps, s =>
    (match s with
     | [] => false
     | _ :: srest => matchGlob fuel ps srest)
  | fuel + 1, '[' :: ps, s =>
    (match parseClass ps with
     | some (neg, cls, prest) =>
       match s with
       | [] => false
       | c :: srest => (classMatch c cls != neg) && matchGlob fuel prest srest
     | none =>
       match s with
       | '[' :: srest => matchGlob fuel ps srest
       | _ => false)
  | fuel + 1, c :: ps, s =>
    (match s with
     | d :: srest => c == d && matchGlob fuel ps srest
     | [] => false)

/-- Models `fnmatch.fnmatch(name, pat)` on POSIX. -/
def fnmatch (name pat : String) : Bool :=
  matchGlob (pat.length + name.length + 1) pat.toList name.toList

/-- The `for path in files:` loop of `apply_excludes`: each path is
expressed relative to the root (raising `ValueError` when it is not under
the root, as `relative_to` does) and kept unless some pattern matches. -/
def applyExcludesGo (root : Path) (excludes : List String) :
    List Path → Except PyErr (List Path)
  | [] => .ok []
  | p :: rest =>
    match relativeTo p root with
    | none => .error .valueError
    | some rel =>
      match applyExcludesGo root excludes rest with
      | .error e => .error e
      | .ok kept =>
        if excludes.any (fun pat => fnmatch (relStr rel) pat) then .ok kept
        else .ok (p :: kept)

/-- Models `apply_excludes(files, root, excludes)`: with no patterns the
set is returned unchanged; otherwise every file whose root-relative
forward-slash string matches some pattern is removed. -/
def apply_excludes (files : List Path) (root : Path) (excludes : List String) :
    Except PyErr (List Path) :=
  if excludes.isEmpty then .ok files else applyExcludesGo root excludes files

/-! ## Manifest loading (`check_package`) and installation -/

/-- Models `check_package(path)`: the directory must exist, `typst.toml`
must exist inside it, and the parsed TOML must have a `package` table.
`tomllib.load` is modelled by the `manifests` map of the filesystem. -/
def check_package (fs : FS) (path0 : Path) : Except PyErr TomlConfig :=
  if pathExists fs path0 then
    let subpath := path0 ++ ["typst.toml"]
    if pathExists fs subpath then
      let config := (fs.manifests.lookup subpath).getD ⟨none, none⟩
      match config.package with
      | none => .error .notValidToml
      | some _ => .ok config
    else .error .noTypstToml
  else .error .dirNotExist

/-- Models `dst.parent.mkdir(parents=True, exist_ok=True)`: every prefix of
`d` becomes an existing directory. -/
def mkdirParents (fs : FS) (d : Path) : FS :=
  { fs with dirs := ((List.range (d.length + 1)).map (fun n => d.take n)) ++ fs.dirs }

/-- Models `copy_package_files(files, package_root, target_root)`: for each
source file, compute its root-relative path (`ValueError` if not under the
root), create the destination's parent directories, and copy the contents
(`IsADirectoryError` if the source is not a regular file). -/
def copy_package_files : FS → List Path → Path → Path → Except PyErr FS
  | fs, [], _, _ => .ok fs
  | fs, src :: rest, package_root, target_root =>
    match relativeTo src package_root with
    | none => .error .valueError
    | some rel =>
      let dst := target_root ++ rel
      let fs1 := mkdirParents fs dst.dropLast
      match readText fs1 src with
      | none => .error .isADirectory
      | some content =>
        copy_package_files { fs1 with files := (dst, content) :: fs1.files }
          rest package_root target_root

/-- The user-facing notices printed by `install_package`. -/
inductive Notice where
  | skip (name version : String)
  | updated (name version : String)
  | installed (name version : String)
deriving DecidableEq

/-- Models `table[k]` on a TOML table where the value is used as a string
or path segment: `KeyError(k)` when absent, `TypeError` when it is an
array. -/
def getStrKey (t : List (String × TomlVal)) (k : String) : Except PyErr String :=
  match t.lookup k with
  | none => .error (.keyError k)
  | some (.str s) => .ok s
  | some (.arr l) =>
    match l with
    | _ => .error .typeError

/-- Models `pkg_config.get("exclude", [])` followed by iteration: an array
yields its elements; a plain string is iterated character by character
(Python string iteration); absence yields the empty list. -/
def getExcludes (t : List (String × TomlVal)) : List String :=
  match t.lookup "exclude" with
  | none => []
  | some (.arr l) => l
  | some (.str s) => s.toList.map (fun c => String.mk [c])

/-- Models `set.add`: a no-op when the element is already present. -/
def addIfAbsent (files : List Path) (p : Path) : List Path :=
  if p ∈ files then files else files ++ [p]

/-- Models `assets.glob("*")`: every file or directory exactly one
component below `d` (pathlib's glob does not treat dotfiles specially). -/
def globStar (fs : FS) (d : Path) : List Path :=
  ((fs.files.map Prod.fst) ++ fs.dirs).filter
    (fun p => p.length == d.length + 1 && p.take d.length == d)

/-- The unconditional auxiliary inclusions of `install_package` after
exclusion filtering, in source order: the manifest itself, `README.md` and
`LICENSE` if present, and the direct entries of an `assets` directory if
present. -/
def addAuxFiles (fs : FS) (package_path : Path) (files0 : List Path) : List Path :=
  let files1 := addIfAbsent files0 (resolveParts (package_path ++ ["typst.toml"]))
  let files2 := if pathExists fs (package_path ++ ["README.md"]) then
      addIfAbsent files1 (resolveParts (package_path ++ ["README.md"]))
    else files1
  let files3 := if pathExists fs (package_path ++ ["LICENSE"]) then
      addIfAbsent files2 (resolveParts (package_path ++ ["LICENSE"]))
    else files2
  if pathExists fs (package_path ++ ["assets"]) then
    (globStar fs (package_path ++ ["assets"])).foldl
      (fun acc q => addIfAbsent acc (resolveParts q)) files3
  else files3

/-- The auxiliary inclusions of `install_package`: `addAuxFiles` followed
by the template entrypoint if a `[template]` table is declared (whose
`path` and `entrypoint` lookups can raise `KeyError`). -/
def addAux (fs : FS) (package_path : Path) (config : TomlConfig)
    (files0 : List Path) : Except PyErr (List Path) :=
  let files4 := addAuxFiles fs package_path files0
  match config.template with
  | none => .ok files4
  | some t =>
    match getStrKey t "path" with
    | .error e => .error e
    | .ok tpath =>
      match getStrKey t "entrypoint" with
      | .error e => .error e
      | .ok tentry =>
        .ok (addIfAbsent files4 (resolveParts (pyJoin (pyJoin package_path tpath) tentry)))

/-- Models `install_package(local_path, package_path, update)`.  The result
is `none` only if the collector ran out of fuel (shown impossible below);
otherwise it is the raised exception, or the final filesystem, the set of
copied files, and the printed notice.  The skip branch returns the
filesystem unchanged with an empty copy set. -/
def install_package (fs : FS) (local_path package_path : Path) (update : Bool) :
    Option (Except PyErr (FS × List Path × Notice)) :=
  match check_package fs package_path with
  | .error e => some (.error e)
  | .ok config =>
    match config.package with
    | none => some (.error (.keyError "package"))
    | some pkg =>
      match getStrKey pkg "name" with
      | .error e => some (.error e)
      | .ok name =>
        match getStrKey pkg "version" with
        | .error e => some (.error e)
        | .ok version =>
          let version_subpath := pyJoin (pyJoin local_path name) version
          if pathExists fs version_subpath && !update then
            some (.ok (fs, [], .skip name version))
          else
            match getStrKey pkg "entrypoint" with
            | .error e => some (.error e)
            | .ok entry =>
              match collect_files fs (pyJoin package_path entry) package_path with
              | none => none
              | some (.error e) => some (.error e)
              | some (.ok collected) =>
                match apply_excludes collected package_path (getExcludes pkg) with
                | .error e => some (.error e)
                | .ok kept =>
                  match addAux fs package_path config kept with
                  | .error e => some (.error e)
                  | .ok files =>
                    match copy_package_files fs files package_path version_subpath with
                    | .error e => some (.error e)
                    | .ok fs2 =>
                      let notice := if pathExists fs2 version_subpath && update
                        then Notice.updated name version
                        else Notice.installed name version
                      some (.ok (fs2, files, notice))

/-! ## The `git+` command-line prefix -/

/-- Models `str.lstrip(chars)`: removes leading characters that belong to
the character set `chars` (not the leading occurrence of `chars` as a
substring). -/
def pyLstrip (s chars : String) : String :=
  String.mk (s.toList.dropWhile (fun c => chars.toList.contains c))

/-- The clone URL `main` passes to `clone_repository_and_install` for a
`git+`-prefixed argument: `str(args.path).lstrip("git+")`. -/
def cloneUrlOf (pathArg : String) : String := pyLstrip pathArg "git+"

/-- What the spec describes: the argument with the leading four-character
prefix `git+` removed. -/
def dropGitPlus (pathArg : String) : String :=
  String.mk (pathArg.toList.drop 4)

deriving instance DecidableEq for Except

/-! ## Concrete package fixtures used to exercise the definitions -/

/-- A `[package]` table with the three required fields. -/
def demoPkg : List (String × TomlVal) :=
  [("name", .str "demo"), ("version", .str "0.1.0"), ("entrypoint", .str "main.typ")]

/-- The spec's worked example: `main.typ` imports `lib.typ` and references
`image("logo.png")`; `lib.typ` imports nothing; `logo.png` exists; no
readme, license, assets directory, template or excludes. -/
def fs1 : FS :=
  { files := [ (["pkg", "main.typ"], "#import \"lib.typ\"\nimage(\"logo.png\")\n")
             , (["pkg", "lib.typ"], "")
             , (["pkg", "logo.png"], "png")
             , (["pkg", "typst.toml"], "toml") ]
  , dirs := [["pkg"]]
  , manifests := [(["pkg", "typst.toml"], ⟨some demoPkg, none⟩)] }

/-- A cyclic import graph: `a.typ` imports `b.typ` and `b.typ` imports
`a.typ`. -/
def fsCyc : FS :=
  { files := [ (["pkgc", "a.typ"], "#import \"b.typ\"")
             , (["pkgc", "b.typ"], "#import \"a.typ\"") ]
  , dirs := [["pkgc"]]
  , manifests := [] }

/-- An entrypoint importing a file that does not exist. -/
def fsMiss : FS :=
  { files := [ (["pkgm", "main.typ"], "#import \"missing.typ\"") ]
  , dirs := [["pkgm"]]
  , manifests := [] }

/-- An entrypoint referencing an asset that does not exist. -/
def fsAsset : FS :=
  { files := [ (["pkga", "main.typ"], "image(\"gone.png\")") ]
  , dirs := [["pkga"]]
  , manifests := [] }

/-- An entrypoint importing a versioned package reference containing `@`. -/
def fsPrev : FS :=
  { files := [ (["pkgp", "main.typ"], "#import \"@preview/foo:0.1.0\"") ]
  , dirs := [["pkgp"]]
  , manifests := [] }

/-- A package whose manifest excludes `main.typ`, the entrypoint, which
imports `lib.typ`. -/
def fsEx : FS :=
  { files := [ (["pkge", "main.typ"], "#import \"lib.typ\"")
             , (["pkge", "lib.typ"], "")
             , (["pkge", "typst.toml"], "t") ]
  , dirs := [["pkge"]]
  , manifests := [(["pkge", "typst.toml"],
      ⟨some (demoPkg ++ [("exclude", .arr ["main.typ"])]), none⟩)] }

/-- A package whose exclude patterns match `typst.toml` itself (and every
`.typ` file). -/
def fsTomlEx : FS :=
  { files := [ (["pkgt", "main.typ"], "")
             , (["pkgt", "typst.toml"], "t") ]
  , dirs := [["pkgt"]]
  , manifests := [(["pkgt", "typst.toml"],
      ⟨some (demoPkg ++ [("exclude", .arr ["typst.toml", "*.typ"])]), none⟩)] }

/-- A package whose versioned destination `loc/demo/0.1.0` already exists. -/
def fsSkip : FS :=
  { files := [ (["pkgs", "main.typ"], "")
             , (["pkgs", "typst.toml"], "t") ]
  , dirs := [["pkgs"], ["loc", "demo", "0.1.0"]]
  , manifests := [(["pkgs", "typst.toml"], ⟨some demoPkg, none⟩)] }

/-- A manifest with a `[package]` table that lacks the required `name`
field. -/
def fsNoName : FS :=
  { files := [ (["pkgn", "typst.toml"], "t") ]
  , dirs := [["pkgn"]]
  , manifests := [(["pkgn", "typst.toml"],
      ⟨some [("version", TomlVal.str "0.1.0")], none⟩)] }

/-- The set of files an `install_package` run copied, when it succeeded. -/
def resultFiles (r : Option (Except PyErr (FS × List Path × Notice))) : List Path :=
  match r with
  | some (.ok (_, f, _)) => f
  | _ => []

/-- The filesystem after an `install_package` run, when it succeeded. -/
def resultFS (r : Option (Except PyErr (FS × List Path × Notice))) : FS :=
  match r with
  | some (.ok (f, _, _)) => f
  | _ => ⟨[], [], []⟩

/-- The notice an `install_package` run printed, when it succeeded. -/
def resultNotice (r : Option (Except PyErr (FS × List Path × Notice))) : Notice :=
  match r with
  | some (.ok (_, _, n)) => n
  | _ => .skip "" ""

/-- Is this notice the already-installed skip notice? -/
def isSkipNotice : Notice → Bool
  | .skip _ _ => true
  | _ => false

/-- Whether `apply_excludes` keeps a path: it must lie under the root and
its root-relative string must match no exclude pattern. -/
def keepsPath (root : Path) (excludes : List String) (q : Path) : Bool :=
  match relativeTo q root with
  | some r => !(excludes.any (fun pat => fnmatch (relStr r) pat))
  | none => false

/-! ## Termination of the collector

The fuel chosen by `collect_files` is enough: every loop iteration either
pops a path without scanning it, or newly discovers a path that is a
regular file, and each file can be scanned only once, pushing at most
`refCount` references. -/

/-- Total reference budget of the files that are not yet discovered. -/
def sumUndisc (l : List (Path × String)) (disc : List Path) : Nat :=
  ((l.filter (fun f => decide (f.1 ∉ disc))).map refCount).sum

theorem sumUndisc_nil (l : List (Path × String)) :
    sumUndisc l [] = (l.map refCount).sum := by
  simp [sumUndisc]

theorem sumUndisc_filter_cons_of_mem (t : List (Path × String)) (d : List Path)
    (q : Path) (s : String) (h : q ∈ d) :
    sumUndisc ((q, s) :: t) d = sumUndisc t d := by
  simp only [sumUndisc, List.filter_cons]
  have : (decide ((q, s).1 ∉ d)) = false := by
    simp [h]
  simp [this]

theorem sumUndisc_filter_cons_of_not_mem (t : List (Path × String)) (d : List Path)
    (q : Path) (s : String) (h : q ∉ d) :
    sumUndisc ((q, s) :: t) d = refCount (q, s) + sumUndisc t d := by
  simp only [sumUndisc, List.filter_cons]
  have : (decide ((q, s).1 ∉ d)) = true := by
    simp [h]
  simp [this]

theorem sumUndisc_cons_le (l : List (Path × String)) (disc : List Path) (p : Path) :
    sumUndisc l (p :: disc) ≤ sumUndisc l disc := by
  induction l with
  | nil => simp [sumUndisc]
  | cons f t ih =>
    rcases f with ⟨q, s⟩
    by_cases h1 : q ∈ p :: disc
    · rw [sumUndisc_filter_cons_of_mem t (p :: disc) q s h1]
      by_cases h2 : q ∈ disc
      · rw [sumUndisc_filter_cons_of_mem t disc q s h2]
        exact ih
      · rw [sumUndisc_filter_cons_of_not_mem t disc q s h2]
        omega
    · have h2 : q ∉ disc := fun hm => h1 (List.mem_cons_of_mem _ hm)
      rw [sumUndisc_filter_cons_of_not_mem t (p :: disc) q s h1,
        sumUndisc_filter_cons_of_not_mem t disc q s h2]
      omega

theorem sumUndisc_lookup (l : List (Path × String)) (disc : List Path) (p : Path)
    (text : String) (hl : l.lookup p = some text) (hp : p ∉ disc) :
    refCount (p, text) + sumUndisc l (p :: disc) ≤ sumUndisc l disc := by
  induction l with
  | nil => simp [List.lookup] at hl
  | cons f t ih =>
    rcases f with ⟨q, s⟩
    by_cases hq : p = q
    · subst hq
      have hs : s = text := by simpa [List.lookup] using hl
      subst hs
      rw [sumUndisc_filter_cons_of_mem t (p :: disc) p s (List.mem_cons_self _ _),
        sumUndisc_filter_cons_of_not_mem t disc p s hp]
      have := sumUndisc_cons_le t disc p
      omega
    · have hbeq : (p == q) = false := beq_false_of_ne hq
      have hl2 : t.lookup p = some text := by simpa [List.lookup, hbeq] using hl
      have hrec := ih hl2
      by_cases h2 : q ∈ disc
      · have h1 : q ∈ p :: disc := List.mem_cons_of_mem _ h2
        rw [sumUndisc_filter_cons_of_mem t (p :: disc) q s h1,
          sumUndisc_filter_cons_of_mem t disc q s h2]
        exact hrec
      · have h1 : q ∉ p :: disc := by
          intro hm
          rcases List.mem_cons.mp hm with h | h
          · exact hq h.symm
          · exact h2 h
        rw [sumUndisc_filter_cons_of_not_mem t (p :: disc) q s h1,
          sumUndisc_filter_cons_of_not_mem t disc q s h2]
        omega

theorem refsToPush_length_le (fs : FS) (base : Path) (text : String) :
    (refsToPush fs base text).length ≤ refCount (base, text) := by
  simp only [refsToPush, refCount, List.length_append, List.length_map]
  have := List.length_filter_le (fun a => pathExists fs a)
    ((assetFindall text).map (joinResolve base))
  simp only [List.length_map] at this
  omega

theorem collectAux_isSome (fs : FS) (root : Path) :
    ∀ fuel stack disc, stack.length + sumUndisc fs.files disc ≤ fuel →
      (collectAux fs root fuel stack disc).isSome := by
  intro fuel
  induction fuel with
  | zero =>
    intro stack disc h
    have : stack = [] := by
      cases stack with
      | nil => rfl
      | cons a t => simp at h
    subst this
    simp [collectAux]
  | succ n ih =>
    intro stack disc h
    cases stack with
    | nil => simp [collectAux]
    | cons current rest =>
      simp only [List.length_cons] at h
      simp only [collectAux]
      by_cases h1 : hasAt current = true
      · rw [if_pos h1]
        exact ih rest disc (by omega)
      · rw [if_neg h1]
        by_cases h2 : current ∈ disc
        · rw [if_pos h2]
          exact ih rest disc (by omega)
        · rw [if_neg h2]
          by_cases h3 : pathExists fs current = false
          · rw [if_pos h3]
            simp
          · rw [if_neg h3]
            by_cases h4 : pySuffix (lastName current) ≠ ".typ"
            · rw [if_pos h4]
              have hle := sumUndisc_cons_le fs.files disc current
              exact ih rest (current :: disc) (by omega)
            · rw [if_neg h4]
              cases ht : readText fs current with
              | none => simp
              | some text =>
                have hlen := refsToPush_length_le fs current.dropLast text
                have hsum : refCount (current, text) + sumUndisc fs.files (current :: disc)
                    ≤ sumUndisc fs.files disc :=
                  sumUndisc_lookup fs.files disc current text ht h2
                have hrc : refCount (current.dropLast, text) = refCount (current, text) := rfl
                refine ih _ (current :: disc) ?_
                simp only [List.length_append, List.length_reverse]
                omega

theorem collect_files_isSome (fs : FS) (entrypoint : List String) (root : Path) :
    (collect_files fs entrypoint root).isSome := by
  apply collectAux_isSome
  simp [collectFuel, sumUndisc_nil]

theorem collectAux_nodup (fs : FS) (root : Path) :
    ∀ fuel stack disc l, disc.Nodup →
      collectAux fs root fuel stack disc = some (.ok l) → l.Nodup := by
  intro fuel
  induction fuel with
  | zero =>
    intro stack disc l hn h
    cases stack with
    | nil =>
      simp only [collectAux] at h
      have : disc = l := by simpa using h
      exact this ▸ hn
    | cons a t => simp [collectAux] at h
  | succ n ih =>
    intro stack disc l hn h
    cases stack with
    | nil =>
      simp only [collectAux] at h
      have : disc = l := by simpa using h
      exact this ▸ hn
    | cons current rest =>
      simp only [collectAux] at h
      by_cases h1 : hasAt current = true
      · rw [if_pos h1] at h
        exact ih rest disc l hn h
      · rw [if_neg h1] at h
        by_cases h2 : current ∈ disc
        · rw [if_pos h2] at h
          exact ih rest disc l hn h
        · rw [if_neg h2] at h
          by_cases h3 : pathExists fs current = false
          · rw [if_pos h3] at h
            simp at h
          · rw [if_neg h3] at h
            have hn2 : (current :: disc).Nodup := List.nodup_cons.mpr ⟨h2, hn⟩
            by_cases h4 : pySuffix (lastName current) ≠ ".typ"
            · rw [if_pos h4] at h
              exact ih rest (current :: disc) l hn2 h
            · rw [if_neg h4] at h
              cases ht : readText fs current with
              | none =>
                rw [ht] at h
                simp at h
              | some text =>
                rw [ht] at h
                exact ih _ (current :: disc) l hn2 h

/-! ## Supporting lemmas for the claim theorems -/

theorem collectAux_nil (fs : FS) (root : Path) (fuel : Nat) (disc : List Path) :
    collectAux fs root fuel [] disc = some (.ok disc) := by
  cases fuel <;> simp [collectAux]

theorem pathChars_foldl (l : List String) (acc : List Char) :
    l.foldl (fun a c => a ++ '/' :: c.toList) acc = acc ++ pathChars l := by
  induction l generalizing acc with
  | nil => simp [pathChars]
  | cons c t ih =>
    have hl : pathChars (c :: t) = ('/' :: c.toList) ++ pathChars t := by
      simp only [pathChars, List.foldl_cons, List.nil_append]
      exact ih ('/' :: c.toList)
    simp only [List.foldl_cons]
    rw [ih (acc ++ '/' :: c.toList), hl]
    simp

theorem pathChars_append (a b : Path) :
    pathChars (a ++ b) = pathChars a ++ pathChars b := by
  simp only [pathChars, List.foldl_append]
  rw [pathChars_foldl]
  rfl

theorem hasAt_of_isPrefixOf (root p : Path) (hpre : root.isPrefixOf p = true)
    (h : hasAt root = true) : hasAt p = true := by
  obtain ⟨t, rfl⟩ := (List.isPrefixOf_iff_prefix.mp hpre)
  simp only [hasAt, List.contains, List.elem_iff] at h ⊢
  rw [pathChars_append]
  exact List.mem_append_left _ h

theorem addIfAbsent_mem_self (files : List Path) (p : Path) : p ∈ addIfAbsent files p := by
  unfold addIfAbsent
  by_cases h : p ∈ files
  · rw [if_pos h]; exact h
  · rw [if_neg h]; simp

theorem addIfAbsent_mem_mono (files : List Path) (p q : Path) (h : q ∈ files) :
    q ∈ addIfAbsent files p := by
  unfold addIfAbsent
  by_cases hp : p ∈ files
  · rw [if_pos hp]; exact h
  · rw [if_neg hp]; exact List.mem_append_left _ h

theorem foldl_addIfAbsent_mono (l : List Path) (acc : List Path) (q : Path) (h : q ∈ acc) :
    q ∈ l.foldl (fun a x => addIfAbsent a (resolveParts x)) acc := by
  induction l generalizing acc with
  | nil => exact h
  | cons c t ih =>
    simp only [List.foldl_cons]
    exact ih _ (addIfAbsent_mem_mono _ _ _ h)

theorem mem_addAuxFiles_of_base (fs : FS) (pp : Path) (files0 : List Path) (q : Path)
    (h : q ∈ addIfAbsent files0 (resolveParts (pp ++ ["typst.toml"]))) :
    q ∈ addAuxFiles fs pp files0 := by
  simp only [addAuxFiles]
  split
  · apply foldl_addIfAbsent_mono
    split
    · apply addIfAbsent_mem_mono
      split
      · exact addIfAbsent_mem_mono _ _ _ h
      · exact h
    · split
      · exact addIfAbsent_mem_mono _ _ _ h
      · exact h
  · split
    · apply addIfAbsent_mem_mono
      split
      · exact addIfAbsent_mem_mono _ _ _ h
      · exact h
    · split
      · exact addIfAbsent_mem_mono _ _ _ h
      · exact h

theorem addAux_toml_mem (fs : FS) (pp : Path) (config : TomlConfig)
    (files0 out : List Path) (h : addAux fs pp config files0 = .ok out) :
    resolveParts (pp ++ ["typst.toml"]) ∈ out := by
  have hbase : resolveParts (pp ++ ["typst.toml"]) ∈
      addAuxFiles fs pp files0 :=
    mem_addAuxFiles_of_base fs pp files0 _ (addIfAbsent_mem_self _ _)
  match hc : config.template with
  | none =>
    simp only [addAux, hc] at h
    have : addAuxFiles fs pp files0 = out := by simpa using h
    rw [← this]
    exact hbase
  | some t =>
    simp only [addAux, hc] at h
    match hgp : getStrKey t "path" with
    | .error e => rw [hgp] at h; simp at h
    | .ok tpath =>
      rw [hgp] at h
      match hge : getStrKey t "entrypoint" with
      | .error e => rw [hge] at h; simp at h
      | .ok tentry =>
        rw [hge] at h
        have : addIfAbsent (addAuxFiles fs pp files0)
            (resolveParts (pyJoin (pyJoin pp tpath) tentry)) = out := by
          simpa using h
        rw [← this]
        exact addIfAbsent_mem_mono _ _ _ hbase

theorem applyExcludesGo_ok_mem (root : Path) (excludes : List String) :
    ∀ files kept, applyExcludesGo root excludes files = .ok kept →
      ∀ q, q ∈ kept ↔ (q ∈ files ∧ keepsPath root excludes q = true) := by
  intro files
  induction files with
  | nil =>
    intro kept h q
    simp only [applyExcludesGo] at h
    have : kept = [] := by simpa using h
    subst this
    simp
  | cons p rest ih =>
    intro kept h q
    simp only [applyExcludesGo] at h
    split at h
    · simp at h
    · rename_i rel hrel
      split at h
      · simp at h
      · rename_i kept0 hgo
        split at h
        · rename_i hm
          have hk : kept0 = kept := by simpa using h
          subst hk
          rw [ih kept0 hgo q]
          constructor
          · rintro ⟨hq, hkeep⟩
            exact ⟨List.mem_cons_of_mem _ hq, hkeep⟩
          · rintro ⟨hq, hkeep⟩
            rcases List.mem_cons.mp hq with rfl | hq2
            · exfalso
              simp only [keepsPath, hrel] at hkeep
              rw [hm] at hkeep
              simp at hkeep
            · exact ⟨hq2, hkeep⟩
        · rename_i hm
          have hk : p :: kept0 = kept := by simpa using h
          subst hk
          constructor
          · intro hq
            rcases List.mem_cons.mp hq with rfl | hq2
            · refine ⟨List.mem_cons_self _ _, ?_⟩
              simp only [keepsPath, hrel]
              simp only [Bool.not_eq_true] at hm
              rw [hm]
              rfl
            · have hih := (ih kept0 hgo q).mp hq2
              exact ⟨List.mem_cons_of_mem _ hih.1, hih.2⟩
          · rintro ⟨hq, hkeep⟩
            rcases List.mem_cons.mp hq with rfl | hq2
            · exact List.mem_cons_self _ _
            · exact List.mem_cons_of_mem _ ((ih kept0 hgo q).mpr ⟨hq2, hkeep⟩)

theorem count_one_of_nodup_mem {α : Type} [BEq α] [LawfulBEq α] (l : List α) (p : α)
    (hn : l.Nodup) (hp : p ∈ l) : l.count p = 1 := by
  induction l with
  | nil => simp at hp
  | cons a t ih =>
    rcases List.mem_cons.mp hp with rfl | hp2
    · have hna : p ∉ t := (List.nodup_cons.mp hn).1
      simp [List.count_cons, List.count_eq_zero.mpr hna]
    · have hn2 := (List.nodup_cons.mp hn).2
      have hne : ¬(a == p) = true := by
        simp only [beq_iff_eq]
        rintro rfl
        exact (List.nodup_cons.mp hn).1 hp2
      simp [List.count_cons, ih hn2 hp2, hne]

/-! ## The claim theorems -/

/-- Claim C1: for the spec's worked example package — entrypoint `main.typ`
containing `#import "lib.typ"` and `image("logo.png")`, `lib.typ` present
and importing nothing, `logo.png` present, no excludes and no
readme/license/assets/template — the file set materialized by
`install_package` is exactly `{main.typ, lib.typ, logo.png, typst.toml}`. -/
theorem claim_C1 :
    resultFiles (install_package fs1 ["loc"] ["pkg"] false) =
      [["pkg", "lib.typ"], ["pkg", "logo.png"], ["pkg", "main.typ"],
        ["pkg", "typst.toml"]] ∧
    resultNotice (install_package fs1 ["loc"] ["pkg"] false) =
      .installed "demo" "0.1.0" := by
  constructor
  · decide
  · decide

/-- Claim C2: closure collection terminates on every input (the fuel
chosen by `collect_files` never runs out, including on cyclic import
graphs), and in every successful result each discovered file appears
exactly once. -/
theorem claim_C2 :
    (∀ (fs : FS) (entrypoint : List String) (root : Path),
      (collect_files fs entrypoint root).isSome) ∧
    (∀ (fs : FS) (entrypoint : List String) (root : Path) (l : List Path),
      collect_files fs entrypoint root = some (Except.ok l) →
      ∀ p ∈ l, l.count p = 1) := by
  constructor
  · exact collect_files_isSome
  · intro fs entrypoint root l h p hp
    have hn : l.Nodup :=
      collectAux_nodup fs root (collectFuel fs) [resolveParts entrypoint] [] l
        List.nodup_nil h
    exact count_one_of_nodup_mem l p hn hp

/-- Witness for C2 at the cyclic package `fsCyc` (`a.typ` imports `b.typ`
and `b.typ` imports `a.typ`): collection terminates and each of the two
files appears exactly once in the result. -/
theorem claim_C2_witness :
    (collect_files fsCyc ["pkgc", "a.typ"] ["pkgc"]).isSome ∧
    (∀ p ∈ ([["pkgc", "b.typ"], ["pkgc", "a.typ"]] : List Path),
      ([["pkgc", "b.typ"], ["pkgc", "a.typ"]] : List Path).count p = 1) := by
  constructor
  · exact claim_C2.1 fsCyc ["pkgc", "a.typ"] ["pkgc"]
  · exact claim_C2.2 fsCyc ["pkgc", "a.typ"] ["pkgc"]
      [["pkgc", "b.typ"], ["pkgc", "a.typ"]] (by decide)

/-- Claim C3: a popped path that does not exist raises `MissingFileError`
naming its package-root-relative path; this can only happen to import
references, because asset references are existence-checked before being
pushed — concretely, a missing asset (`fsAsset`) is silently left out of
the result with no error. -/
theorem claim_C3 :
    (∀ (fs : FS) (root current : Path) (rest disc : List Path) (fuel : Nat),
      hasAt current = false → current ∉ disc → pathExists fs current = false →
      root.isPrefixOf current = true →
      collectAux fs root (fuel + 1) (current :: rest) disc =
        some (.error (.missingFile (relStr (current.drop root.length))))) ∧
    (collect_files fsAsset ["pkga", "main.typ"] ["pkga"] =
        some (.ok [["pkga", "main.typ"]]) ∧
      (["pkga", "gone.png"] : Path) ∉ ([["pkga", "main.typ"]] : List Path)) := by
  constructor
  · intro fs root current rest disc fuel h1 h2 h3 h4
    simp only [collectAux]
    rw [if_neg (by simp [h1]), if_neg h2, if_pos h3]
    simp only [missingErr, relativeTo]
    rw [if_pos h4]
  · exact ⟨by decide, by decide⟩

/-- Witness for C3: in `fsMiss` the entrypoint imports `missing.typ`, which
does not exist; popping it raises `MissingFileError` naming
`missing.typ`. -/
theorem claim_C3_witness :
    collectAux fsMiss ["pkgm"] 1 [["pkgm", "missing.typ"]] [] =
      some (.error (.missingFile "missing.typ")) := by
  have h := claim_C3.1 fsMiss ["pkgm"] ["pkgm", "missing.typ"] [] [] 0
    (by decide) (by decide) (by decide) (by decide)
  exact h

/-- Claim C4: exclusion is applied only after the full closure: for every
member of the closure handed to `apply_excludes`, the file is absent from
the final set when its root-relative string matches some exclude glob, and
present otherwise — so imports of an excluded file stay unless they match
too.  Concretely, in `fsEx` the excluded entrypoint `main.typ` is absent
but its import `lib.typ` is installed. -/
theorem claim_C4 :
    (∀ (files : List Path) (root : Path) (excludes : List String)
       (kept : List Path) (p rel : Path),
      apply_excludes files root excludes = .ok kept → p ∈ files →
      relativeTo p root = some rel →
      ((excludes.any (fun pat => fnmatch (relStr rel) pat) = true → p ∉ kept) ∧
       (excludes.any (fun pat => fnmatch (relStr rel) pat) = false → p ∈ kept))) ∧
    (resultFiles (install_package fsEx ["loc"] ["pkge"] false) =
      [["pkge", "lib.typ"], ["pkge", "typst.toml"]]) := by
  constructor
  · intro files root excludes kept p rel hok hp hrel
    simp only [apply_excludes] at hok
    by_cases he : excludes.isEmpty = true
    · rw [if_pos he] at hok
      have hk : files = kept := by simpa using hok
      subst hk
      have he2 : excludes = [] := List.isEmpty_iff.mp he
      subst he2
      constructor
      · intro hm
        simp at hm
      · intro _
        exact hp
    · rw [if_neg he] at hok
      have hmem := applyExcludesGo_ok_mem root excludes files kept hok p
      have hkeep : keepsPath root excludes p =
          !(excludes.any (fun pat => fnmatch (relStr rel) pat)) := by
        simp [keepsPath, hrel]
      constructor
      · intro hm hcontra
        have hk2 := (hmem.mp hcontra).2
        rw [hkeep, hm] at hk2
        simp at hk2
      · intro hm
        apply hmem.mpr
        refine ⟨hp, ?_⟩
        rw [hkeep, hm]
        rfl
  · decide

/-- Witness for C4: a `.typ` file matched by `*.typ` is removed, a `.png`
file matched by nothing is kept. -/
theorem claim_C4_witness :
    (["pkgw", "a.typ"] : Path) ∉ ([] : List Path) ∧
    (["pkgw", "b.png"] : Path) ∈ ([["pkgw", "b.png"]] : List Path) := by
  constructor
  · exact (claim_C4.1 [["pkgw", "a.typ"]] ["pkgw"] ["*.typ"] []
      ["pkgw", "a.typ"] ["a.typ"] (by decide) (by decide) (by decide)).1 (by decide)
  · exact (claim_C4.1 [["pkgw", "b.png"]] ["pkgw"] ["*.typ"] [["pkgw", "b.png"]]
      ["pkgw", "b.png"] ["b.png"] (by decide) (by decide) (by decide)).2 (by decide)

/-- Claim C5: a popped path whose resolved string contains `@` is skipped
entirely — the loop continues exactly as on the remaining stack, so the
path is not added, not existence-checked, and raises nothing.  Concretely,
an entrypoint importing `@preview/foo:0.1.0` (`fsPrev`) yields only the
entrypoint although the `@`-path does not exist. -/
theorem claim_C5 :
    (∀ (fs : FS) (root current : Path) (rest disc : List Path) (fuel : Nat),
      hasAt current = true →
      collectAux fs root (fuel + 1) (current :: rest) disc =
        collectAux fs root fuel rest disc) ∧
    (collect_files fsPrev ["pkgp", "main.typ"] ["pkgp"] =
        some (.ok [["pkgp", "main.typ"]]) ∧
      pathExists fsPrev ["pkgp", "@preview", "foo:0.1.0"] = false ∧
      (["pkgp", "@preview", "foo:0.1.0"] : Path) ∉
        ([["pkgp", "main.typ"]] : List Path)) := by
  constructor
  · intro fs root current rest disc fuel h1
    simp only [collectAux]
    rw [if_pos h1]
  · exact ⟨by decide, by decide, by decide⟩

/-- Witness for C5: the `@preview` path of `fsPrev`, popped with the
entrypoint already discovered, is skipped and the loop continues on the
empty stack. -/
theorem claim_C5_witness :
    collectAux fsPrev ["pkgp"] 3 [["pkgp", "@preview", "foo:0.1.0"]]
        [["pkgp", "main.typ"]] =
      collectAux fsPrev ["pkgp"] 2 [] [["pkgp", "main.typ"]] :=
  claim_C5.1 fsPrev ["pkgp"] ["pkgp", "@preview", "foo:0.1.0"] []
    [["pkgp", "main.typ"]] 2 (by decide)

/-- Counterexample to claim C6: `fsNoName`'s manifest has a `[package]`
table lacking the required `name` field, yet manifest loading succeeds
(returns the parsed config) instead of failing with
`InvalidManifestError`. -/
theorem claim_C6_counterexample :
    check_package fsNoName ["pkgn"] =
      Except.ok ⟨some [("version", TomlVal.str "0.1.0")], none⟩ ∧
    ([("version", TomlVal.str "0.1.0")] : List (String × TomlVal)).lookup "name" =
      none := by
  exact ⟨by decide, by decide⟩

/-- Claim C6 amended: manifest loading fails with `NotAPackageError`
(missing `typst.toml`) when no manifest file exists at the root, and with
`InvalidManifestError` when the manifest parses without a `package` table;
a missing required field (`name`, `version`, `entrypoint`) is not detected
at load time — the install later fails with a `KeyError` naming the
field. -/
theorem claim_C6_amended :
    (∀ (fs : FS) (path0 : Path), pathExists fs path0 = true →
      pathExists fs (path0 ++ ["typst.toml"]) = false →
      check_package fs path0 = .error .noTypstToml) ∧
    (∀ (fs : FS) (path0 : Path), pathExists fs path0 = true →
      pathExists fs (path0 ++ ["typst.toml"]) = true →
      ((fs.manifests.lookup (path0 ++ ["typst.toml"])).getD ⟨none, none⟩).package =
        none →
      check_package fs path0 = .error .notValidToml) ∧
    (install_package fsNoName ["loc"] ["pkgn"] false =
      some (.error (.keyError "name"))) := by
  refine ⟨?_, ?_, by decide⟩
  · intro fs path0 h1 h2
    simp only [check_package]
    rw [if_pos h1, if_neg (by simp [h2])]
  · intro fs path0 h1 h2 h3
    simp only [check_package]
    rw [if_pos h1, if_pos h2, h3]

/-- Witness for the amended C6: `fsCyc`'s root exists but holds no
`typst.toml`, so loading fails with the missing-manifest error. -/
theorem claim_C6_witness :
    check_package fsCyc ["pkgc"] = .error .noTypstToml :=
  claim_C6_amended.1 fsCyc ["pkgc"] (by decide) (by decide)

/-- Claim C7 evaluated on the code: `main` strips the `git+` marker with
`str.lstrip("git+")`, which removes all leading characters drawn from the
set `{g,i,t,+}`, not the four-character prefix.  For a clone URL that
itself starts with such characters (`git://...`) the string passed to the
clone is not the argument minus its `git+` prefix. -/
theorem claim_C7_bug :
    cloneUrlOf "git+git://example.com/repo.git" = "://example.com/repo.git" ∧
    dropGitPlus "git+git://example.com/repo.git" = "git://example.com/repo.git" ∧
    cloneUrlOf "git+git://example.com/repo.git" ≠
      dropGitPlus "git+git://example.com/repo.git" ∧
    cloneUrlOf "git+https://example.com/repo.git" = "https://example.com/repo.git" := by
  exact ⟨by decide, by decide, by decide, by decide⟩

/-- Claim C8: installing without `--update` when the versioned destination
`<local>/<name>/<version>` already exists returns immediately with the
skip notice: the filesystem is returned unchanged (zero writes), no file
set is collected or copied, and no error is raised. -/
theorem claim_C8 (fs : FS) (local_path package_path : Path)
    (pkg : List (String × TomlVal)) (tmpl : Option (List (String × TomlVal)))
    (name version : String)
    (hcheck : check_package fs package_path = .ok ⟨some pkg, tmpl⟩)
    (hname : getStrKey pkg "name" = .ok name)
    (hver : getStrKey pkg "version" = .ok version)
    (hex : pathExists fs (pyJoin (pyJoin local_path name) version) = true) :
    install_package fs local_path package_path false =
      some (.ok (fs, [], .skip name version)) := by
  simp only [install_package, hcheck, hname, hver, hex]
  simp

/-- Witness for C8: `fsSkip` already has `loc/demo/0.1.0`; installing
without update leaves the filesystem unchanged and prints the skip
notice. -/
theorem claim_C8_witness :
    install_package fsSkip ["loc"] ["pkgs"] false =
      some (.ok (fsSkip, [], .skip "demo" "0.1.0")) :=
  claim_C8 fsSkip ["loc"] ["pkgs"] demoPkg none "demo" "0.1.0"
    (by decide) (by decide) (by decide) (by decide)

/-- Claim C9: every successful non-skip install copies the manifest
`typst.toml` itself — it is added to the file set after exclusion
filtering, hence present even when an exclude pattern matches it. -/
theorem claim_C9 (fs : FS) (local_path package_path : Path) (update : Bool)
    (fs2 : FS) (files : List Path) (notice : Notice)
    (hok : install_package fs local_path package_path update =
      some (.ok (fs2, files, notice)))
    (hns : isSkipNotice notice = false) :
    resolveParts (package_path ++ ["typst.toml"]) ∈ files := by
  simp only [install_package] at hok
  split at hok
  · exact absurd hok (by simp)
  · rename_i config hcheck
    split at hok
    · exact absurd hok (by simp)
    · rename_i pkg0 hpkg
      split at hok
      · exact absurd hok (by simp)
      · rename_i name0 hname
        split at hok
        · exact absurd hok (by simp)
        · rename_i version0 hver
          split at hok
          · simp only [Option.some.injEq, Except.ok.injEq, Prod.mk.injEq] at hok
            obtain ⟨-, -, hnot⟩ := hok
            rw [← hnot] at hns
            simp [isSkipNotice] at hns
          · split at hok
            · exact absurd hok (by simp)
            · rename_i entry0 hentry
              split at hok
              · exact absurd hok (by simp)
              · exact absurd hok (by simp)
              · rename_i collected hcoll
                split at hok
                · exact absurd hok (by simp)
                · rename_i kept hkept
                  split at hok
                  · exact absurd hok (by simp)
                  · rename_i files1 haux
                    split at hok
                    · exact absurd hok (by simp)
                    · rename_i fs3 hcopy
                      simp only [Option.some.injEq, Except.ok.injEq,
                        Prod.mk.injEq] at hok
                      obtain ⟨-, hfiles, -⟩ := hok
                      rw [← hfiles]
                      exact addAux_toml_mem fs package_path config kept files1 haux

/-- Witness for C9 at `fsTomlEx`, whose exclude patterns match both
`typst.toml` and every `.typ` file: the manifest is still among the copied
files. -/
theorem claim_C9_witness :
    resolveParts ((["pkgt"] : Path) ++ ["typst.toml"]) ∈
      resultFiles (install_package fsTomlEx ["loc"] ["pkgt"] false) :=
  claim_C9 fsTomlEx ["loc"] ["pkgt"] false
    (resultFS (install_package fsTomlEx ["loc"] ["pkgt"] false))
    (resultFiles (install_package fsTomlEx ["loc"] ["pkgt"] false))
    (resultNotice (install_package fsTomlEx ["loc"] ["pkgt"] false))
    (by decide) (by decide)

/-- Claim C10: when the package root's resolved path contains `@`, every
path under it (the entrypoint included) contains `@` too, so the collector
skips the entrypoint, performs no existence check, raises no error, and
returns the empty set. -/
theorem claim_C10 (fs : FS) (root : Path) (entrypoint : List String)
    (hat : hasAt root = true)
    (hpre : root.isPrefixOf (resolveParts entrypoint) = true) :
    collect_files fs entrypoint root = some (.ok []) := by
  have hat2 : hasAt (resolveParts entrypoint) = true :=
    hasAt_of_isPrefixOf root _ hpre hat
  unfold collect_files
  have hf : collectFuel fs = (fs.files.map refCount).sum + 1 := by
    simp [collectFuel, Nat.add_comm]
  rw [hf]
  simp only [collectAux]
  rw [if_pos hat2]

/-- Witness for C10: an empty filesystem with a root `/@local/pkg`
containing `@` yields the empty set without error. -/
theorem claim_C10_witness :
    collect_files (⟨[], [], []⟩ : FS) ["@local", "pkg", "main.typ"]
      ["@local", "pkg"] = some (.ok []) :=
  claim_C10 ⟨[], [], []⟩ ["@local", "pkg"] ["@local", "pkg", "main.typ"]
    (by decide) (by decide)

end Typi
